import Mathlib

/-!
Shallow embedding of the streamrecorder controller (server.js, current cron-enabled
variant and the legacy variant) for verification of its reconciliation, lifecycle,
and scheduling behaviour.

The durable registry file is modelled by an explicit state (`StateFile`): it can be
missing, unreadable (corrupt), or hold a list of recording records.  The `ps`
snapshot of live transcoder processes is a list of `(pid, extracted name)` pairs.
Effectful operations are modelled as pure state transformers that additionally
report the signals they send (`KillAction`) and, for the start operation, the
ordered trace of externally visible side effects (Event).
-/

namespace StreamRecorder

/-- A live ffmpeg process as recognised in the ps output: its pid and the name
extracted from the output-path argument by the signature pattern. -/
structure ProcInfo where
  pid : Nat
  name : String
  deriving Repr, DecidableEq

/-- One recording record as persisted in the registry state file.  The pid is
optional because a failed spawn leaves the pid property undefined. -/
structure Recording where
  name : String
  outputPath : String
  startTime : String
  streamUrl : String
  pid : Option Nat
  durationMinutes : Option Nat := none
  deriving Repr, DecidableEq

/-- The durable registry store: the file can be absent, unreadable, or hold a
recordings array. -/
inductive StateFile where
  | missing
  | corrupt
  | good (recordings : List Recording)
  deriving Repr, DecidableEq

/-- loadStateFile: returns the recordings array, or the empty list when the file
is missing or cannot be parsed (the error is logged and swallowed). -/
def loadStateFile : StateFile → List Recording
  | .good rs => rs
  | _ => []

/-- saveStateFile: overwrites the durable file with the given record set. -/
def saveStateFile (rs : List Recording) : StateFile :=
  .good rs

/-- A termination signal kind. -/
inductive Signal where
  | sigterm
  | sigkill
  deriving Repr, DecidableEq

/-- One process.kill action: target pid, signal, and the setTimeout delay in
milliseconds after which it fires (0 means immediate). -/
structure KillAction where
  pid : Nat
  signal : Signal
  delayMs : Nat
  deriving Repr, DecidableEq

/-- The runningProcessMap lookup: the JS Map is built by inserting each process
keyed by pid (later inserts win), and recording.pid may be undefined (none),
in which case the lookup misses. -/
def runningProcessLookup (procs : List ProcInfo) : Option Nat → Option ProcInfo
  | none => none
  | some p => procs.foldl (fun acc proc => if proc.pid = p then some proc else acc) none

/-- The filter predicate of syncStateWithPs (current variant): keep a record iff
a live process has its pid and the name extracted from that process agrees. -/
def keepRecording (procs : List ProcInfo) (r : Recording) : Bool :=
  match runningProcessLookup procs r.pid with
  | none => false
  | some proc => proc.name == r.name

/-- How syncStateWithPs updates the durable store: only when the cleaned set
differs in size from the loaded set; the file is removed when the cleaned set
is empty, otherwise the cleaned set is saved. -/
def updatedStore (st : StateFile) (loaded cleaned : List Recording) : StateFile :=
  if cleaned.length ≠ loaded.length then
    if cleaned.length = 0 then .missing else saveStateFile cleaned
  else st

/-- Result of one reconciliation pass: the durable store afterwards, the cleaned
record set it returns, and every kill action it issued. -/
structure SyncResult where
  store : StateFile
  cleaned : List Recording
  kills : List KillAction
  deriving Repr, DecidableEq

/-- syncStateWithPs of the current (cron-enabled) server: drops records whose pid
is not live or whose live process carries a different extracted name, persists
the cleaned set when its size changed, and returns it.  It sends no signals. -/
def syncStateWithPs (procs : List ProcInfo) (st : StateFile) : SyncResult :=
  let stateRecordings := loadStateFile st
  let cleaned := stateRecordings.filter (keepRecording procs)
  { store := updatedStore st stateRecordings cleaned
    cleaned := cleaned
    kills := [] }

/-- The orphan-kill loop of the legacy syncStateWithPs: every running process
whose pid is not among the loaded registry pids gets SIGTERM at once and a
SIGKILL scheduled 2000 ms later. -/
def orphanKills (procs : List ProcInfo) (statePids : List Nat) : List KillAction :=
  procs.flatMap fun proc =>
    if statePids.contains proc.pid then []
    else [⟨proc.pid, .sigterm, 0⟩, ⟨proc.pid, .sigkill, 2000⟩]

/-- syncStateWithPs of the legacy server variant: kills orphaned processes, then
drops records whose pid is no longer running (no name cross-check), with the
same store-update rule as the current variant. -/
def syncStateWithPsLegacy (procs : List ProcInfo) (st : StateFile) : SyncResult :=
  let stateRecordings := loadStateFile st
  let statePids := stateRecordings.filterMap (·.pid)
  let runningPids := procs.map (·.pid)
  let cleaned := stateRecordings.filter fun r =>
    match r.pid with
    | some p => runningPids.contains p
    | none => false
  { store := updatedStore st stateRecordings cleaned
    cleaned := cleaned
    kills := orphanKills procs statePids }

/-- getActiveRecordings: run a reconciliation pass, then re-load the store. -/
def getActiveRecordings (procs : List ProcInfo) (st : StateFile) :
    StateFile × List Recording :=
  let res := syncStateWithPs procs st
  (res.store, loadStateFile res.store)

/-- The character class of the name validation regex: letters and digits only. -/
def isNameChar (c : Char) : Bool :=
  c.isAlpha || c.isDigit

/-- validateName: the test of the anchored regex accepting one or more
alphanumeric characters, nothing else. -/
def validateName (name : String) : Bool :=
  !name.isEmpty && name.data.all isNameChar

/-- The local-time components read from the Date at filename-generation time. -/
structure DateParts where
  year : Nat
  month : Nat
  day : Nat
  hours : Nat
  minutes : Nat
  seconds : Nat
  deriving Repr, DecidableEq

/-- Two-digit zero padding of a numeric component. -/
def pad2 (n : Nat) : String :=
  let s := toString n
  if s.length < 2 then "0" ++ s else s

/-- The timestamp block of a generated filename. -/
def timestampString (d : DateParts) : String :=
  toString d.year ++ pad2 d.month ++ pad2 d.day ++ pad2 d.hours
    ++ pad2 d.minutes ++ pad2 d.seconds

/-- generateFilename: streamrecording_NAME_TIMESTAMP.mp3 for the given date. -/
def generateFilename (name : String) (d : DateParts) : String :=
  "streamrecording_" ++ name ++ "_" ++ timestampString d ++ ".mp3"

/-- path.join as used here: both components are plain relative or absolute
segments without trailing separators. -/
def pathJoin (a b : String) : String :=
  a ++ "/" ++ b

/-- The default output directory (OUTPUT_DIR unset). -/
def outputDirDefault : String :=
  "/recordings"

/-- The stored symlink target: the recording lives one directory above the links
directory. -/
def linkTarget (filename : String) : String :=
  pathJoin ".." filename

/-- The links directory contents, as a map from alias name to stored target. -/
abbrev Links := List (String × String)

/-- createSymlink: remove any existing alias for the name, then create the alias
pointing one directory up at the new filename. -/
def createSymlink (links : Links) (name filename : String) : Links :=
  (name, linkTarget filename) :: links.filter (fun e => e.1 != name)

/-- Look up the stored target of the alias for a name. -/
def lookupLink (links : Links) (name : String) : Option String :=
  (links.find? (fun e => e.1 == name)).map (·.2)

/-- Resolve a symlink stored in the links subdirectory of the output directory:
a target beginning with the parent segment points back into the output
directory itself. -/
def resolveLink (outputDir target : String) : String :=
  if List.isPrefixOf "../".data target.data then
    pathJoin outputDir (List.asString (target.data.drop 3))
  else
    pathJoin (pathJoin outputDir "links") target

/-- The ffmpeg invocation built by the manual start endpoint. -/
def ffmpegCmd (streamUrl outputPath : String) : List String :=
  ["ffmpeg", "-re", "-i", streamUrl, "-vn", "-acodec", "libmp3lame",
   "-ar", "48000", "-b:a", "192k", "-f", "mp3",
   "-fflags", "+flush_packets", "-flush_packets", "1", outputPath]

/-- The ffmpeg invocation built by the cron start path, with the optional
duration limit inserted when positive. -/
def cronFfmpegCmd (streamUrl outputPath : String) (durationMinutes : Option Nat) :
    List String :=
  ["ffmpeg", "-re", "-i", streamUrl]
    ++ (match durationMinutes with
        | some m => if 0 < m then ["-t", toString (m * 60)] else []
        | none => [])
    ++ ["-vn", "-acodec", "libmp3lame", "-ar", "48000", "-b:a", "192k", "-f", "mp3",
        "-fflags", "+flush_packets", "-flush_packets", "1", outputPath]

/-- Externally visible side effects of a start operation, in program order. -/
inductive Event where
  | aliasUpdate (name filename : String)
  | spawnProc (cmd : List String)
  | registryAppend (r : Recording)
  deriving Repr, DecidableEq

/-- Outcome of the start endpoint. -/
inductive StartResult where
  | missingFields
  | invalidName
  | duplicateActive
  | started (name outputPath : String)
  deriving Repr, DecidableEq

/-- The controller state touched by a start operation: the registry store and
the links directory. -/
structure ServerState where
  stateFile : StateFile
  links : Links
  deriving Repr, DecidableEq

/-- Full outcome of a start operation. -/
structure StartOutcome where
  result : StartResult
  state : ServerState
  events : List Event
  deriving Repr, DecidableEq

/-- The start endpoint.  spawnPid is the pid property of the child returned by
spawn: none models a spawn that fails (the pid is undefined and an error event
fires later).  Note the endpoint responds success and appends the record
regardless of the spawn outcome. -/
def recordStart (streamUrl name : String) (procs : List ProcInfo) (d : DateParts)
    (spawnPid : Option Nat) (st : ServerState) : StartOutcome :=
  if streamUrl.isEmpty || name.isEmpty then
    ⟨.missingFields, st, []⟩
  else if !validateName name then
    ⟨.invalidName, st, []⟩
  else
    let sync := getActiveRecordings procs st.stateFile
    let st1 : ServerState := { st with stateFile := sync.1 }
    if sync.2.any (fun r => r.name == name) then
      ⟨.duplicateActive, st1, []⟩
    else
      let filename := generateFilename name d
      let outputPath := pathJoin outputDirDefault filename
      let links2 := createSymlink st1.links name filename
      let newRec : Recording :=
        { name := name, outputPath := outputPath, startTime := timestampString d,
          streamUrl := streamUrl, pid := spawnPid, durationMinutes := none }
      let loaded := loadStateFile st1.stateFile
      ⟨.started name outputPath,
       { stateFile := saveStateFile (loaded ++ [newRec]), links := links2 },
       [.aliasUpdate name filename,
        .spawnProc (ffmpegCmd streamUrl outputPath),
        .registryAppend newRec]⟩

/-- Outcome of the stop endpoint. -/
inductive StopResult where
  | nameRequired
  | notFound
  | stopped (name outputPath : String)
  deriving Repr, DecidableEq

/-- Full outcome of a stop operation. -/
structure StopOutcome where
  result : StopResult
  stateFile : StateFile
  kills : List KillAction
  deriving Repr, DecidableEq

/-- The stop endpoint: reconcile, look the record up by name, signal its pid
(SIGTERM at once, SIGKILL scheduled after 2000 ms), reconcile again, and return
the output path at once; a missing record is a 404 with no signal sent. -/
def recordStop (name : String) (procs : List ProcInfo) (st : StateFile) :
    StopOutcome :=
  if name.isEmpty then
    ⟨.nameRequired, st, []⟩
  else
    let sync := getActiveRecordings procs st
    match sync.2.find? (fun r => r.name == name) with
    | none => ⟨.notFound, sync.1, []⟩
    | some r =>
      let kills := match r.pid with
        | some p => [⟨p, .sigterm, 0⟩, ⟨p, .sigkill, 2000⟩]
        | none => []
      let res2 := syncStateWithPs procs sync.1
      ⟨.stopped name r.outputPath, res2.store, kills⟩

/-- The status endpoint with a name query: reconcile, then report the matching
record when one is active; none models the inactive (active false) reply. -/
def recordStatus (name : String) (procs : List ProcInfo) (st : StateFile) :
    Option Recording × StateFile :=
  let sync := getActiveRecordings procs st
  (sync.2.find? (fun r => r.name == name), sync.1)

/-- JS falsy-to-null coercion applied to the stored duration: a zero duration is
stored as null. -/
def jsOrNull : Option Nat → Option Nat
  | some 0 => none
  | x => x

/-- Full outcome of a cron-triggered start: fired is false when the firing was
skipped because the name was already recording. -/
structure CronStartOutcome where
  fired : Bool
  state : ServerState
  events : List Event
  deriving Repr, DecidableEq

/-- startRecordingFromCron: skip (and only log) when the name already has an
active record, otherwise run the same alias-spawn-append sequence as the manual
start, additionally storing the duration limit. -/
def startRecordingFromCron (streamUrl name : String) (durationMinutes : Option Nat)
    (procs : List ProcInfo) (d : DateParts) (spawnPid : Option Nat)
    (st : ServerState) : CronStartOutcome :=
  let sync := getActiveRecordings procs st.stateFile
  let st1 : ServerState := { st with stateFile := sync.1 }
  if sync.2.any (fun r => r.name == name) then
    ⟨false, st1, []⟩
  else
    let filename := generateFilename name d
    let outputPath := pathJoin outputDirDefault filename
    let links2 := createSymlink st1.links name filename
    let newRec : Recording :=
      { name := name, outputPath := outputPath, startTime := timestampString d,
        streamUrl := streamUrl, pid := spawnPid,
        durationMinutes := jsOrNull durationMinutes }
    let loaded := loadStateFile st1.stateFile
    ⟨true,
     { stateFile := saveStateFile (loaded ++ [newRec]), links := links2 },
     [.aliasUpdate name filename,
      .spawnProc (cronFfmpegCmd streamUrl outputPath durationMinutes),
      .registryAppend newRec]⟩

/-- One persisted schedule definition. -/
structure CronJob where
  id : String
  cron : String
  streamUrl : String
  name : String
  durationMinutes : Option Nat
  deriving Repr, DecidableEq

/-- The durable schedule store. -/
inductive CronFile where
  | missing
  | corrupt
  | good (jobs : List CronJob)
  deriving Repr, DecidableEq

/-- loadCronSchedule: the jobs array, or empty when missing or unreadable. -/
def loadCronSchedule : CronFile → List CronJob
  | .good jobs => jobs
  | _ => []

/-- saveCronSchedule: overwrite the schedule file. -/
def saveCronSchedule (jobs : List CronJob) : CronFile :=
  .good jobs

/-- Outcome of the schedule add/update endpoint. -/
inductive CronAddResult where
  | missingFields
  | invalidName
  | invalidDuration
  | invalidCron
  | saved (job : CronJob)
  deriving Repr, DecidableEq

/-- The schedule add/update endpoint.  cronValidate stands for the external
trigger-expression validator.  An existing job with the same id is replaced in
place; otherwise the job is appended; the whole set is persisted. -/
def addCronJob (cronValidate : String → Bool)
    (id cronExpression streamUrl name : String) (durationMinutes : Option Nat)
    (cf : CronFile) : CronAddResult × CronFile :=
  if id.isEmpty || cronExpression.isEmpty || streamUrl.isEmpty || name.isEmpty then
    (.missingFields, cf)
  else if !validateName name then
    (.invalidName, cf)
  else if durationMinutes == some 0 then
    (.invalidDuration, cf)
  else if !cronValidate cronExpression then
    (.invalidCron, cf)
  else
    let jobs := loadCronSchedule cf
    let job : CronJob := ⟨id, cronExpression, streamUrl, name, jsOrNull durationMinutes⟩
    let jobs2 :=
      match jobs.findIdx? (fun j => j.id == id) with
      | some i => jobs.set i job
      | none => jobs ++ [job]
    (.saved job, saveCronSchedule jobs2)

/-- The schedule delete endpoint: disarm, drop every job with the id, persist. -/
def deleteCronJob (id : String) (cf : CronFile) : CronFile :=
  saveCronSchedule ((loadCronSchedule cf).filter (fun j => j.id != id))

/-!
The signature-extraction pattern of getRunningFfmpegProcesses, the regex
streamrecording underscore capture-group underscore digits dot mp3, where the
capture group is one or more characters that are neither an underscore nor
whitespace.  The embedding below implements the backtracking search of the JS
engine for this fixed pattern: match positions are tried left to right; at a
match position the capture group is tried longest first, then the digit run
longest first, then the literal tail must follow.
-/

/-- The literal marker that anchors the extraction pattern. -/
def signatureMarker : List Char :=
  "streamrecording_".data

/-- The capture-group character class: anything except underscore and
whitespace. -/
def sigNameChar (c : Char) : Bool :=
  c != '_' && !c.isWhitespace

/-- The literal tail of the extraction pattern. -/
def mp3Tail : List Char :=
  ".mp3".data

/-- Backtracking over the digit-run length, longest first: succeed when some
nonempty digit run of length at most dl is followed by the literal tail. -/
def digitsLoop (r2 : List Char) : Nat → Bool
  | 0 => false
  | dl + 1 => List.isPrefixOf mp3Tail (r2.drop (dl + 1)) || digitsLoop r2 dl

/-- Match the digit run followed by the literal tail, trying the longest digit
run first (the run can only shrink within the maximal digit prefix). -/
def digitsThenTail (r2 : List Char) : Bool :=
  digitsLoop r2 (r2.takeWhile Char.isDigit).length

/-- Backtracking over the capture-group length, longest first: at each length
the underscore literal and then the digit run plus tail must follow. -/
def captureLoop (rest : List Char) : Nat → Option (List Char)
  | 0 => none
  | len + 1 =>
    (if List.isPrefixOf ['_'] (rest.drop (len + 1))
        && digitsThenTail ((rest.drop (len + 1)).drop 1)
     then some (rest.take (len + 1)) else none)
    <|> captureLoop rest len

/-- Match the capture group, the underscore, the digit run and the tail right
after the marker, trying the longest capture first; returns the capture. -/
def captureAfterMarker (rest : List Char) : Option (List Char) :=
  captureLoop rest ((rest.takeWhile sigNameChar).length)

/-- Attempt the whole pattern at this exact position. -/
def tryMatchAt (cs : List Char) : Option (List Char) :=
  if List.isPrefixOf signatureMarker cs then
    captureAfterMarker (cs.drop signatureMarker.length)
  else none

/-- The leftmost-match search of the pattern over the argument string. -/
def extractSigName : List Char → Option (List Char)
  | [] => none
  | c :: cs =>
    match tryMatchAt (c :: cs) with
    | some nm => some nm
    | none => extractSigName cs

/-- The name a process is recognised under: the capture group of the first
match of the extraction pattern in its argument string. -/
def extractNameFromArgs (args : String) : Option String :=
  (extractSigName args.data).map List.asString

/-! Helper lemmas. -/

theorem validateName_isEmpty_false {name : String} (h : validateName name = true) :
    name.isEmpty = false := by
  unfold validateName at h
  cases he : name.isEmpty
  · rfl
  · rw [he] at h
    simp at h

theorem validateName_all {name : String} (h : validateName name = true) :
    ∀ c ∈ name.data, isNameChar c = true := by
  unfold validateName at h
  rw [Bool.and_eq_true, List.all_eq_true] at h
  exact h.2

theorem isEmpty_false_of_mem {name : String} {c : Char} (hc : c ∈ name.data) :
    name.isEmpty = false := by
  cases he : name.isEmpty
  · rfl
  · exfalso
    have hn : name = "" := (String.isEmpty_iff name).mp he
    subst hn
    simp at hc

/-- C8: for every durable-store content, including a missing file and corrupt
data, loadStateFile returns a record list and never fails the caller; on
missing or corrupt data it returns the empty list, and on readable data it
returns exactly the stored records. -/
theorem loadStateFile_total_and_safe :
    loadStateFile StateFile.missing = []
  ∧ loadStateFile StateFile.corrupt = []
  ∧ ∀ st : StateFile,
      loadStateFile st = [] ∨ ∃ rs, st = .good rs ∧ loadStateFile st = rs := by
  refine ⟨rfl, rfl, ?_⟩
  intro st
  cases st with
  | missing => exact Or.inl rfl
  | corrupt => exact Or.inl rfl
  | good rs => exact Or.inr ⟨rs, rfl, rfl⟩

/-- C2 (code bug): the reconciliation pass of the current server sends no
termination signal at all, for any input; in particular a live transcoder with
pid 7 and an empty registry is an orphan and survives the pass unsignalled,
while the legacy reconciler of the same repository signals exactly that orphan
with SIGTERM at once and SIGKILL after the 2000 ms grace period, as the spec
and the README describe. -/
theorem syncStateWithPs_never_kills_orphans :
    (∀ (procs : List ProcInfo) (st : StateFile), (syncStateWithPs procs st).kills = [])
  ∧ (syncStateWithPs [⟨7, "foo"⟩] StateFile.missing).kills = []
  ∧ (syncStateWithPs [⟨7, "foo"⟩] StateFile.missing).cleaned = []
  ∧ (syncStateWithPsLegacy [⟨7, "foo"⟩] StateFile.missing).kills =
      [⟨7, .sigterm, 0⟩, ⟨7, .sigkill, 2000⟩] := by
  refine ⟨fun procs st => rfl, rfl, rfl, by decide⟩

theorem lookup_fold_some {p : Nat} :
    ∀ (procs : List ProcInfo) (acc : Option ProcInfo) (proc : ProcInfo),
      procs.foldl (fun acc0 q => if q.pid = p then some q else acc0) acc = some proc →
      (proc ∈ procs ∧ proc.pid = p) ∨ acc = some proc := by
  intro procs
  induction procs with
  | nil => intro acc proc h; exact Or.inr h
  | cons q qs ih =>
    intro acc proc h
    simp only [List.foldl_cons] at h
    rcases ih _ _ h with ⟨hm, hp⟩ | hacc
    · exact Or.inl ⟨List.mem_cons_of_mem _ hm, hp⟩
    · by_cases hq : q.pid = p
      · rw [if_pos hq] at hacc
        injection hacc with he
        subst he
        exact Or.inl ⟨List.mem_cons_self _ _, hq⟩
      · rw [if_neg hq] at hacc
        exact Or.inr hacc

theorem lookup_fold_none {p : Nat} :
    ∀ (procs : List ProcInfo) (acc : Option ProcInfo),
      procs.foldl (fun acc0 q => if q.pid = p then some q else acc0) acc = none →
      acc = none ∧ ∀ q ∈ procs, q.pid ≠ p := by
  intro procs
  induction procs with
  | nil => intro acc h; exact ⟨h, by simp⟩
  | cons q qs ih =>
    intro acc h
    simp only [List.foldl_cons] at h
    obtain ⟨hacc, hall⟩ := ih _ h
    by_cases hq : q.pid = p
    · rw [if_pos hq] at hacc
      exact absurd hacc (by simp)
    · rw [if_neg hq] at hacc
      refine ⟨hacc, ?_⟩
      intro x hx
      rcases List.mem_cons.mp hx with rfl | hx2
      · exact hq
      · exact hall x hx2

theorem keepRecording_iff {procs : List ProcInfo} {r : Recording}
    (hnodup : (procs.map ProcInfo.pid).Nodup) :
    keepRecording procs r = true ↔
      ∃ proc ∈ procs, r.pid = some proc.pid ∧ proc.name = r.name := by
  unfold keepRecording
  cases hpid : r.pid with
  | none =>
    simp only [runningProcessLookup]
    constructor
    · intro h; cases h
    · rintro ⟨proc, -, hp, -⟩
      cases hp
  | some p =>
    cases hl : runningProcessLookup procs (some p) with
    | none =>
      constructor
      · intro h; cases h
      · rintro ⟨proc, hmem, hp, -⟩
        obtain ⟨-, hall⟩ := lookup_fold_none procs none hl
        injection hp with hp
        exact absurd hp.symm (hall proc hmem)
    | some proc =>
      rcases lookup_fold_some procs none proc hl with ⟨hmem, hpe⟩ | habs
      · constructor
        · intro h
          have h2 : (proc.name == r.name) = true := h
          exact ⟨proc, hmem, by rw [hpe], by simpa using h2⟩
        · rintro ⟨q, hqmem, hqp, hqn⟩
          have hqp2 : q.pid = p := (Option.some.inj hqp).symm
          have hq : q = proc :=
            List.inj_on_of_nodup_map hnodup hqmem hmem (by rw [hqp2, hpe])
          show (proc.name == r.name) = true
          rw [← hq]
          simpa using hqn
      · cases habs

/-- C1: a reconciliation pass keeps a registry entry iff some live process has
the entry's pid and the name extracted from that process agrees with the entry's
name; the returned current truth is exactly the filtered loaded set; when the
cleaned set differs in size from the loaded set it is persisted, with the store
file removed entirely when the cleaned set is empty, and when the size is
unchanged the store is untouched.  The process list is a snapshot of the OS
process table, so its pids are distinct. -/
theorem syncStateWithPs_spec (procs : List ProcInfo) (st : StateFile)
    (hnodup : (procs.map ProcInfo.pid).Nodup) :
    (syncStateWithPs procs st).cleaned = (loadStateFile st).filter (keepRecording procs)
  ∧ (∀ r ∈ loadStateFile st,
      (r ∈ (syncStateWithPs procs st).cleaned ↔
        ∃ proc ∈ procs, r.pid = some proc.pid ∧ proc.name = r.name))
  ∧ ((syncStateWithPs procs st).cleaned.length ≠ (loadStateFile st).length →
      (syncStateWithPs procs st).store =
        (if (syncStateWithPs procs st).cleaned.length = 0 then StateFile.missing
         else saveStateFile (syncStateWithPs procs st).cleaned))
  ∧ ((syncStateWithPs procs st).cleaned.length = (loadStateFile st).length →
      (syncStateWithPs procs st).store = st) := by
  refine ⟨rfl, ?_, ?_, ?_⟩
  · intro r hr
    constructor
    · intro hmem
      have hk : keepRecording procs r = true :=
        (List.mem_filter.mp hmem).2
      exact (keepRecording_iff hnodup).mp hk
    · intro hx
      exact List.mem_filter.mpr ⟨hr, (keepRecording_iff hnodup).mpr hx⟩
  · intro hne
    have hne2 : (List.filter (keepRecording procs) (loadStateFile st)).length ≠
        (loadStateFile st).length := hne
    show updatedStore st _ _ = _
    unfold updatedStore
    rw [if_pos hne2]
    rfl
  · intro heq
    have heq2 : (List.filter (keepRecording procs) (loadStateFile st)).length =
        (loadStateFile st).length := heq
    show updatedStore st _ _ = st
    unfold updatedStore
    rw [if_neg (fun hcon => hcon heq2)]

theorem loadStateFile_saveStateFile (rs : List Recording) :
    loadStateFile (saveStateFile rs) = rs := rfl

theorem asString_data (s : String) : List.asString s.data = s := by
  cases s
  rfl

theorem isPrefixOf_append_self (l r : List Char) : List.isPrefixOf l (l ++ r) = true := by
  induction l with
  | nil => simp
  | cons a as ih => simp [List.isPrefixOf, ih]

theorem takeWhile_all_append_neg {p : Char → Bool} {xs : List Char} {y : Char}
    {ys : List Char} (hxs : ∀ x ∈ xs, p x = true) (hy : p y = false) :
    (xs ++ y :: ys).takeWhile p = xs := by
  rw [List.takeWhile_append_of_pos hxs, List.takeWhile_cons_of_neg (by simp [hy])]
  simp

theorem lookupLink_createSymlink (links : Links) (name filename : String) :
    lookupLink (createSymlink links name filename) name = some (linkTarget filename) := by
  unfold lookupLink createSymlink
  rw [List.find?_cons_of_pos]
  · rfl
  · simp

theorem resolveLink_linkTarget (outputDir filename : String) :
    resolveLink outputDir (linkTarget filename) = pathJoin outputDir filename := by
  unfold resolveLink linkTarget pathJoin
  have hdata : (".." ++ "/" ++ filename).data = "../".data ++ filename.data := by
    rw [String.data_append, String.data_append]
    rw [show "..".data ++ "/".data = "../".data from by decide]
  rw [hdata, isPrefixOf_append_self]
  simp only [if_true]
  rw [List.drop_left' (by decide), asString_data]

theorem digitChar_isDigit {m : Nat} (h : m < 10) : (Nat.digitChar m).isDigit = true := by
  interval_cases m <;> decide

theorem toDigitsCore_digits (fuel : Nat) :
    ∀ (n : Nat) (ds : List Char), (∀ c ∈ ds, c.isDigit = true) →
      ∀ c ∈ Nat.toDigitsCore 10 fuel n ds, c.isDigit = true := by
  induction fuel with
  | zero =>
    intro n ds hds c hc
    simpa [Nat.toDigitsCore] using hds c hc
  | succ f ih =>
    intro n ds hds c hc
    simp only [Nat.toDigitsCore] at hc
    have hd : (Nat.digitChar (n % 10)).isDigit = true :=
      digitChar_isDigit (Nat.mod_lt n (by decide))
    split at hc
    · rcases List.mem_cons.mp hc with rfl | hc2
      · exact hd
      · exact hds c hc2
    · refine ih (n / 10) (Nat.digitChar (n % 10) :: ds) ?_ c hc
      intro x hx
      rcases List.mem_cons.mp hx with rfl | hx2
      · exact hd
      · exact hds x hx2

theorem natToString_digits (n : Nat) : ∀ c ∈ (toString n).data, c.isDigit = true := by
  intro c hc
  have h : (toString n).data = Nat.toDigitsCore 10 (n + 1) n [] := rfl
  rw [h] at hc
  exact toDigitsCore_digits (n + 1) n [] (by simp) c hc

theorem toDigitsCore_length (b fuel : Nat) :
    ∀ (n : Nat) (ds : List Char), ds.length ≤ (Nat.toDigitsCore b fuel n ds).length := by
  induction fuel with
  | zero => intro n ds; simp [Nat.toDigitsCore]
  | succ f ih =>
    intro n ds
    simp only [Nat.toDigitsCore]
    split
    · simp
    · exact le_trans (by simp) (ih (n / b) (Nat.digitChar (n % b) :: ds))

theorem natToString_ne_nil (n : Nat) : (toString n).data ≠ [] := by
  have h : (toString n).data = Nat.toDigitsCore 10 (n + 1) n [] := rfl
  rw [h]
  simp only [Nat.toDigitsCore]
  split
  · simp
  · intro hcon
    have h2 := toDigitsCore_length 10 n (n / 10) [Nat.digitChar (n % 10)]
    rw [hcon] at h2
    simp at h2

theorem pad2_digits (n : Nat) : ∀ c ∈ (pad2 n).data, c.isDigit = true := by
  intro c hc
  simp only [pad2] at hc
  split at hc
  · rw [String.data_append] at hc
    rcases List.mem_append.mp hc with h0 | hs
    · have hc0 : c = '0' := by simpa using h0
      subst hc0
      decide
    · exact natToString_digits n c hs
  · exact natToString_digits n c hc

theorem timestampString_digits (d : DateParts) :
    ∀ c ∈ (timestampString d).data, c.isDigit = true := by
  intro c hc
  unfold timestampString at hc
  simp only [String.data_append, List.mem_append] at hc
  rcases hc with ((((h | h) | h) | h) | h) | h
  · exact natToString_digits d.year c h
  · exact pad2_digits d.month c h
  · exact pad2_digits d.day c h
  · exact pad2_digits d.hours c h
  · exact pad2_digits d.minutes c h
  · exact pad2_digits d.seconds c h

theorem timestampString_ne_nil (d : DateParts) : (timestampString d).data ≠ [] := by
  unfold timestampString
  simp only [String.data_append]
  intro hcon
  simp only [List.append_eq_nil] at hcon
  exact natToString_ne_nil d.year hcon.1.1.1.1.1

theorem sigNameChar_of_isNameChar {c : Char} (h : isNameChar c = true) :
    sigNameChar c = true := by
  unfold sigNameChar
  rw [Bool.and_eq_true]
  constructor
  · rw [bne_iff_ne]
    intro he
    subst he
    exact absurd h (by decide)
  · cases hw : c.isWhitespace
    · rfl
    · exfalso
      have hw2 : ((c = ' ' ∨ c = '\t') ∨ c = '\x0d') ∨ c = '\n' := by
        simpa [Char.isWhitespace] using hw
      rcases hw2 with ((rfl | rfl) | rfl) | rfl <;> exact absurd h (by decide)

theorem digitsThenTail_generated {ts : List Char} (hts : ∀ c ∈ ts, c.isDigit = true)
    (hne : ts ≠ []) : digitsThenTail (ts ++ mp3Tail) = true := by
  unfold digitsThenTail
  have hmax : (ts ++ mp3Tail).takeWhile Char.isDigit = ts := by
    rw [show mp3Tail = '.' :: "mp3".data from rfl]
    exact takeWhile_all_append_neg hts (by decide)
  rw [hmax]
  obtain ⟨m, hm⟩ : ∃ m, ts.length = m + 1 := by
    cases hl : ts.length with
    | zero => exact absurd (List.length_eq_zero.mp hl) hne
    | succ m => exact ⟨m, rfl⟩
  rw [hm]
  unfold digitsLoop
  rw [← hm, List.drop_left]
  rw [show List.isPrefixOf mp3Tail mp3Tail = true from by decide]
  simp

theorem captureAfterMarker_generated {nm ts : List Char}
    (hnm : ∀ c ∈ nm, sigNameChar c = true) (hnmne : nm ≠ [])
    (hts : ∀ c ∈ ts, c.isDigit = true) (htsne : ts ≠ []) :
    captureAfterMarker (nm ++ '_' :: (ts ++ mp3Tail)) = some nm := by
  unfold captureAfterMarker
  have hmax : (nm ++ '_' :: (ts ++ mp3Tail)).takeWhile sigNameChar = nm :=
    takeWhile_all_append_neg hnm (by decide)
  rw [hmax]
  obtain ⟨m, hm⟩ : ∃ m, nm.length = m + 1 := by
    cases hl : nm.length with
    | zero => exact absurd (List.length_eq_zero.mp hl) hnmne
    | succ m => exact ⟨m, rfl⟩
  rw [hm]
  unfold captureLoop
  rw [← hm, List.drop_left, List.take_left]
  rw [show List.isPrefixOf ['_'] ('_' :: (ts ++ mp3Tail)) = true from by simp [List.isPrefixOf],
      List.drop_succ_cons, List.drop_zero]
  rw [digitsThenTail_generated hts htsne]
  simp

theorem tryMatchAt_generated {nm ts : List Char}
    (hnm : ∀ c ∈ nm, sigNameChar c = true) (hnmne : nm ≠ [])
    (hts : ∀ c ∈ ts, c.isDigit = true) (htsne : ts ≠ []) :
    tryMatchAt (signatureMarker ++ (nm ++ '_' :: (ts ++ mp3Tail))) = some nm := by
  unfold tryMatchAt
  rw [isPrefixOf_append_self, List.drop_left]
  · exact captureAfterMarker_generated hnm hnmne hts htsne

theorem extractSigName_of_tryMatchAt {cs nm : List Char}
    (h : tryMatchAt cs = some nm) : extractSigName cs = some nm := by
  cases cs with
  | nil =>
    exfalso
    unfold tryMatchAt at h
    rw [show List.isPrefixOf signatureMarker ([] : List Char) = false from by decide] at h
    simp at h
  | cons c cs2 =>
    unfold extractSigName
    rw [h]

theorem generateFilename_data (name : String) (d : DateParts) :
    (generateFilename name d).data =
      signatureMarker ++ (name.data ++ '_' :: ((timestampString d).data ++ mp3Tail)) := by
  unfold generateFilename
  simp only [String.data_append, signatureMarker, mp3Tail, List.append_assoc]
  simp

theorem sync_after_append_dead (procs : List ProcInfo) (loaded : List Recording)
    (r0 : Recording) (hlive : ∀ r ∈ loaded, keepRecording procs r = true)
    (hdead : keepRecording procs r0 = false) :
    (syncStateWithPs procs (saveStateFile (loaded ++ [r0]))).cleaned = loaded
  ∧ loadStateFile (syncStateWithPs procs (saveStateFile (loaded ++ [r0]))).store
      = loaded := by
  have hfe : loaded.filter (keepRecording procs) = loaded := List.filter_eq_self.mpr hlive
  have hclean2 : (loaded ++ [r0]).filter (keepRecording procs) = loaded := by
    rw [List.filter_append, hfe]
    simp [hdead]
  constructor
  · show (loaded ++ [r0]).filter (keepRecording procs) = loaded
    exact hclean2
  · show loadStateFile (updatedStore (saveStateFile (loaded ++ [r0])) (loaded ++ [r0])
      ((loaded ++ [r0]).filter (keepRecording procs))) = loaded
    rw [hclean2]
    unfold updatedStore
    rw [if_pos (by simp)]
    by_cases h0 : loaded.length = 0
    · rw [if_pos h0]
      exact (List.length_eq_zero.mp h0).symm
    · rw [if_neg h0]
      rfl

/-- Witness for C1 at a concrete snapshot: one live matching process, one dead
entry, distinct pids. -/
theorem syncStateWithPs_spec_witness :
    (([⟨5, "a"⟩, ⟨6, "x"⟩] : List ProcInfo).map ProcInfo.pid).Nodup
  ∧ ((⟨"a", "p1", "t", "u", some 5, none⟩ : Recording) ∈
      (syncStateWithPs [⟨5, "a"⟩, ⟨6, "x"⟩]
        (StateFile.good [⟨"a", "p1", "t", "u", some 5, none⟩,
                         ⟨"b", "p2", "t", "u", some 6, none⟩])).cleaned ↔
      ∃ proc ∈ ([⟨5, "a"⟩, ⟨6, "x"⟩] : List ProcInfo),
        (⟨"a", "p1", "t", "u", some 5, none⟩ : Recording).pid = some proc.pid ∧
        proc.name = (⟨"a", "p1", "t", "u", some 5, none⟩ : Recording).name) :=
  ⟨by decide,
   (syncStateWithPs_spec [⟨5, "a"⟩, ⟨6, "x"⟩]
      (StateFile.good [⟨"a", "p1", "t", "u", some 5, none⟩,
                       ⟨"b", "p2", "t", "u", some 6, none⟩])
      (by decide)).2.1 _ (by decide)⟩

/-- C3: a start request for a name that already has an active record, as
reported by the reconciler, fails as a duplicate: no record is created beyond
the reconciliation pass itself, no process is spawned, the links are untouched;
and a scheduled (cron) firing for such a name is skipped with no spawn and no
record either. -/
theorem startDuplicate_rejected (streamUrl name : String) (procs : List ProcInfo)
    (d : DateParts) (spawnPid dm : Option Nat) (st : ServerState)
    (hurl : streamUrl.isEmpty = false) (hname : validateName name = true)
    (hdup : ∃ r ∈ (getActiveRecordings procs st.stateFile).2, r.name = name) :
    (recordStart streamUrl name procs d spawnPid st).result = .duplicateActive
  ∧ (recordStart streamUrl name procs d spawnPid st).state =
      { st with stateFile := (getActiveRecordings procs st.stateFile).1 }
  ∧ (recordStart streamUrl name procs d spawnPid st).events = []
  ∧ (startRecordingFromCron streamUrl name dm procs d spawnPid st).fired = false
  ∧ (startRecordingFromCron streamUrl name dm procs d spawnPid st).state =
      { st with stateFile := (getActiveRecordings procs st.stateFile).1 }
  ∧ (startRecordingFromCron streamUrl name dm procs d spawnPid st).events = [] := by
  have hne : name.isEmpty = false := validateName_isEmpty_false hname
  have hany : ((getActiveRecordings procs st.stateFile).2.any
      fun r => r.name == name) = true := by
    rcases hdup with ⟨r, hr, hrn⟩
    exact List.any_eq_true.mpr ⟨r, hr, by simp [hrn]⟩
  unfold recordStart startRecordingFromCron
  rw [hurl, hne, hname]
  simp [hany]

/-- Witness for C3: a second start of the already-recording name foo is
rejected as a duplicate. -/
theorem startDuplicate_rejected_witness :
    ("http://u" : String).isEmpty = false
  ∧ validateName "foo" = true
  ∧ (∃ r ∈ (getActiveRecordings [⟨5, "foo"⟩]
        (StateFile.good [⟨"foo", "p", "t", "u", some 5, none⟩])).2, r.name = "foo")
  ∧ (recordStart "http://u" "foo" [⟨5, "foo"⟩] ⟨2025, 1, 1, 0, 0, 0⟩ (some 9)
        ⟨StateFile.good [⟨"foo", "p", "t", "u", some 5, none⟩], []⟩).result
      = .duplicateActive :=
  ⟨by decide, by decide, by decide,
   (startDuplicate_rejected "http://u" "foo" [⟨5, "foo"⟩] ⟨2025, 1, 1, 0, 0, 0⟩ (some 9) none
      ⟨StateFile.good [⟨"foo", "p", "t", "u", some 5, none⟩], []⟩
      (by decide) (by decide) (by decide)).1⟩

/-- C4: a start with a name containing a non-alphanumeric character fails the
identifier validation before any side effect: the whole controller state
(registry store and links) is unchanged and no event is emitted. -/
theorem startInvalidName_rejected (streamUrl name : String) (procs : List ProcInfo)
    (d : DateParts) (spawnPid : Option Nat) (st : ServerState)
    (hurl : streamUrl.isEmpty = false)
    (c : Char) (hc : c ∈ name.data) (hbad : isNameChar c = false) :
    (recordStart streamUrl name procs d spawnPid st).result = .invalidName
  ∧ (recordStart streamUrl name procs d spawnPid st).state = st
  ∧ (recordStart streamUrl name procs d spawnPid st).events = [] := by
  have hne : name.isEmpty = false := isEmpty_false_of_mem hc
  have hval : validateName name = false := by
    unfold validateName
    rw [hne]
    simp only [Bool.not_false, Bool.true_and]
    rw [List.all_eq_false]
    exact ⟨c, hc, by simp [hbad]⟩
  unfold recordStart
  rw [hurl, hne, hval]
  simp

/-- Witness for C4: a name with an embedded space is rejected with the state
untouched. -/
theorem startInvalidName_rejected_witness :
    ("http://u" : String).isEmpty = false
  ∧ ' ' ∈ ("a b" : String).data
  ∧ isNameChar ' ' = false
  ∧ (recordStart "http://u" "a b" [] ⟨2025, 1, 1, 0, 0, 0⟩ none
        ⟨StateFile.missing, []⟩).result = .invalidName
  ∧ (recordStart "http://u" "a b" [] ⟨2025, 1, 1, 0, 0, 0⟩ none
        ⟨StateFile.missing, []⟩).state = ⟨StateFile.missing, []⟩ :=
  ⟨by decide, by decide, by decide,
   (startInvalidName_rejected "http://u" "a b" [] ⟨2025, 1, 1, 0, 0, 0⟩ none
      ⟨StateFile.missing, []⟩ (by decide) ' ' (by decide) (by decide)).1,
   (startInvalidName_rejected "http://u" "a b" [] ⟨2025, 1, 1, 0, 0, 0⟩ none
      ⟨StateFile.missing, []⟩ (by decide) ' ' (by decide) (by decide)).2.1⟩

/-- C6: a stop for a name with no active record reports not-found, sends no
signal and leaves the store exactly as the reconciliation pass left it; a
status query for an absent name likewise signals absence with no effect beyond
the pass; a stop for an active record returns that record output path at once
and sends a graceful SIGTERM immediately with a forceful SIGKILL scheduled
after the 2000 ms grace period, without waiting for the process to exit. -/
theorem stopAndStatus_spec (name : String) (procs : List ProcInfo) (st : StateFile)
    (hname : name.isEmpty = false) :
    ((∀ r ∈ (getActiveRecordings procs st).2, r.name ≠ name) →
        (recordStop name procs st).result = .notFound
      ∧ (recordStop name procs st).stateFile = (getActiveRecordings procs st).1
      ∧ (recordStop name procs st).kills = []
      ∧ (recordStatus name procs st).1 = none
      ∧ (recordStatus name procs st).2 = (getActiveRecordings procs st).1)
  ∧ (∀ r p, (getActiveRecordings procs st).2.find? (fun x => x.name == name) = some r →
        r.pid = some p →
        (recordStop name procs st).result = .stopped name r.outputPath
      ∧ (recordStop name procs st).kills =
          [⟨p, .sigterm, 0⟩, ⟨p, .sigkill, 2000⟩]) := by
  constructor
  · intro habs
    have hfind : (getActiveRecordings procs st).2.find?
        (fun x => x.name == name) = none := by
      rw [List.find?_eq_none]
      intro x hx
      simp [habs x hx]
    unfold recordStop recordStatus
    rw [hname]
    simp [hfind]
  · intro r p hfind hp
    unfold recordStop
    rw [hname]
    simp [hfind, hp]

/-- Witness for C6: stopping the absent name x on an empty registry is a
not-found with no signal, and stopping the active name foo signals its pid. -/
theorem stopAndStatus_spec_witness :
    ("x" : String).isEmpty = false
  ∧ (recordStop "x" [] StateFile.missing).result = .notFound
  ∧ (recordStop "foo" [⟨5, "foo"⟩]
        (StateFile.good [⟨"foo", "p", "t", "u", some 5, none⟩])).kills =
      [⟨5, .sigterm, 0⟩, ⟨5, .sigkill, 2000⟩] :=
  ⟨by decide,
   ((stopAndStatus_spec "x" [] StateFile.missing (by decide)).1 (by decide)).1,
   ((stopAndStatus_spec "foo" [⟨5, "foo"⟩]
        (StateFile.good [⟨"foo", "p", "t", "u", some 5, none⟩]) (by decide)).2
      ⟨"foo", "p", "t", "u", some 5, none⟩ 5 (by decide) (by decide)).2⟩

/-- C9: in a successful start the side effects happen in this order: the alias
is created or replaced first, the transcoder is spawned second, and the new
record carrying the spawned pid is appended to the registry last; afterwards
the alias for the name resolves to the returned output path. -/
theorem startSuccess_ordering (streamUrl name : String) (procs : List ProcInfo)
    (d : DateParts) (p : Nat) (st : ServerState)
    (hurl : streamUrl.isEmpty = false) (hname : validateName name = true)
    (hfree : ∀ r ∈ (getActiveRecordings procs st.stateFile).2, r.name ≠ name) :
    (recordStart streamUrl name procs d (some p) st).result =
      .started name (pathJoin outputDirDefault (generateFilename name d))
  ∧ (recordStart streamUrl name procs d (some p) st).events =
      [.aliasUpdate name (generateFilename name d),
       .spawnProc (ffmpegCmd streamUrl (pathJoin outputDirDefault (generateFilename name d))),
       .registryAppend ⟨name, pathJoin outputDirDefault (generateFilename name d),
                        timestampString d, streamUrl, some p, none⟩]
  ∧ (lookupLink (recordStart streamUrl name procs d (some p) st).state.links name).map
      (resolveLink outputDirDefault)
      = some (pathJoin outputDirDefault (generateFilename name d))
  ∧ loadStateFile (recordStart streamUrl name procs d (some p) st).state.stateFile
      = loadStateFile (getActiveRecordings procs st.stateFile).1
        ++ [⟨name, pathJoin outputDirDefault (generateFilename name d),
             timestampString d, streamUrl, some p, none⟩] := by
  have hne : name.isEmpty = false := validateName_isEmpty_false hname
  have hany : ((getActiveRecordings procs st.stateFile).2.any
      fun r => r.name == name) = false := by
    rw [List.any_eq_false]
    intro r hr
    simp [hfree r hr]
  unfold recordStart
  rw [hurl, hne, hname]
  simp [hany, lookupLink_createSymlink, resolveLink_linkTarget, loadStateFile_saveStateFile]

/-- Witness for C9: starting foo on an empty registry succeeds with the three
events in order. -/
theorem startSuccess_ordering_witness :
    ("http://u" : String).isEmpty = false
  ∧ validateName "foo" = true
  ∧ (∀ r ∈ (getActiveRecordings [] StateFile.missing).2, r.name ≠ "foo")
  ∧ (recordStart "http://u" "foo" [] ⟨2025, 1, 2, 3, 4, 5⟩ (some 42)
        ⟨StateFile.missing, []⟩).events =
      [.aliasUpdate "foo" (generateFilename "foo" ⟨2025, 1, 2, 3, 4, 5⟩),
       .spawnProc (ffmpegCmd "http://u"
          (pathJoin outputDirDefault (generateFilename "foo" ⟨2025, 1, 2, 3, 4, 5⟩))),
       .registryAppend ⟨"foo", pathJoin outputDirDefault (generateFilename "foo" ⟨2025, 1, 2, 3, 4, 5⟩),
          timestampString ⟨2025, 1, 2, 3, 4, 5⟩, "http://u", some 42, none⟩] :=
  ⟨by decide, by decide, by decide,
   (startSuccess_ordering "http://u" "foo" [] ⟨2025, 1, 2, 3, 4, 5⟩ 42
      ⟨StateFile.missing, []⟩ (by decide) (by decide) (by decide)).2.1⟩

/-- C10: for every name accepted by the identifier validation and every
timestamp, the signature-extraction pattern applied to the generated filename
succeeds and yields exactly the original name. -/
theorem filename_roundtrip (name : String) (d : DateParts)
    (hname : validateName name = true) :
    extractNameFromArgs (generateFilename name d) = some name := by
  have hnm : ∀ c ∈ name.data, sigNameChar c = true := fun c hc =>
    sigNameChar_of_isNameChar (validateName_all hname c hc)
  have hnmne : name.data ≠ [] := by
    intro h0
    have he : name.isEmpty = false := validateName_isEmpty_false hname
    cases name with
    | mk data =>
      simp only at h0
      subst h0
      exact absurd he (by decide)
  unfold extractNameFromArgs
  rw [generateFilename_data,
      extractSigName_of_tryMatchAt
        (tryMatchAt_generated hnm hnmne (timestampString_digits d) (timestampString_ne_nil d))]
  simp [asString_data]

/-- C5 counterexample: when the spawn fails (the child has no pid), start still
reports success to the caller and a registry entry for the name is written, so
the claim that no entry is written and the error is surfaced fails on the code
with an empty registry and the start of foo. -/
theorem spawnFailure_counterexample :
    (recordStart "http://u" "foo" [] ⟨2025, 1, 2, 3, 4, 5⟩ none
        ⟨StateFile.missing, []⟩).result =
      .started "foo" (pathJoin outputDirDefault (generateFilename "foo" ⟨2025, 1, 2, 3, 4, 5⟩))
  ∧ loadStateFile (recordStart "http://u" "foo" [] ⟨2025, 1, 2, 3, 4, 5⟩ none
        ⟨StateFile.missing, []⟩).state.stateFile =
      [⟨"foo", pathJoin outputDirDefault (generateFilename "foo" ⟨2025, 1, 2, 3, 4, 5⟩),
        timestampString ⟨2025, 1, 2, 3, 4, 5⟩, "http://u", none, none⟩] := by
  constructor
  · decide
  · decide

/-- C5 (amended): start appends the record and reports success regardless of
the spawn outcome; on a failed spawn the error handler only triggers a
reconciliation pass, and that pass removes the dead entry (its pid is
undefined, so no live process matches), restoring the registry that was loaded
before the start, provided the pre-existing entries are still live. -/
theorem spawnFailure_cleanup (streamUrl name : String) (procs : List ProcInfo)
    (d : DateParts) (st : ServerState)
    (hurl : streamUrl.isEmpty = false) (hname : validateName name = true)
    (hlive : ∀ r ∈ loadStateFile st.stateFile, keepRecording procs r = true)
    (hfree : ∀ r ∈ (getActiveRecordings procs st.stateFile).2, r.name ≠ name) :
    (recordStart streamUrl name procs d none st).result =
      .started name (pathJoin outputDirDefault (generateFilename name d))
  ∧ (syncStateWithPs procs (recordStart streamUrl name procs d none st).state.stateFile).cleaned
      = loadStateFile st.stateFile
  ∧ loadStateFile
      (syncStateWithPs procs
        (recordStart streamUrl name procs d none st).state.stateFile).store
      = loadStateFile st.stateFile := by
  have hne : name.isEmpty = false := validateName_isEmpty_false hname
  have hany : ((getActiveRecordings procs st.stateFile).2.any
      fun r => r.name == name) = false := by
    rw [List.any_eq_false]
    intro r hr
    simp [hfree r hr]
  have hfe : (loadStateFile st.stateFile).filter (keepRecording procs)
      = loadStateFile st.stateFile := List.filter_eq_self.mpr hlive
  have hstore1 : (syncStateWithPs procs st.stateFile).store = st.stateFile := by
    show updatedStore _ _ _ = _
    unfold updatedStore
    rw [hfe]
    simp
  have hga : getActiveRecordings procs st.stateFile
      = (st.stateFile, loadStateFile st.stateFile) := by
    show ((syncStateWithPs procs st.stateFile).store,
          loadStateFile (syncStateWithPs procs st.stateFile).store) = _
    rw [hstore1]
  have hfree2 : ∀ r ∈ loadStateFile st.stateFile, r.name ≠ name := by
    have h := hfree
    rw [hga] at h
    exact h
  have hnex : ¬ ∃ x ∈ loadStateFile st.stateFile, x.name = name := by
    rintro ⟨x, hx, hxe⟩
    exact hfree2 x hx hxe
  have hkeepnone : keepRecording procs
      ⟨name, pathJoin outputDirDefault (generateFilename name d),
       timestampString d, streamUrl, none, none⟩ = false := rfl
  have hsf : (recordStart streamUrl name procs d none st).state.stateFile =
      saveStateFile (loadStateFile st.stateFile ++
        [⟨name, pathJoin outputDirDefault (generateFilename name d),
          timestampString d, streamUrl, none, none⟩]) := by
    unfold recordStart
    rw [hurl, hne, hname]
    simp [hany, hga, hnex]
  have hmain := sync_after_append_dead procs (loadStateFile st.stateFile)
    ⟨name, pathJoin outputDirDefault (generateFilename name d),
     timestampString d, streamUrl, none, none⟩ hlive hkeepnone
  refine ⟨?_, ?_, ?_⟩
  · unfold recordStart
    rw [hurl, hne, hname]
    simp [hany, hga, hnex]
  · rw [hsf]
    exact hmain.1
  · rw [hsf]
    exact hmain.2

/-- Witness for the amended C5: the dead entry of a failed spawn of foo is
dropped by the next reconciliation pass, leaving the registry as before. -/
theorem spawnFailure_cleanup_witness :
    validateName "foo" = true
  ∧ (∀ r ∈ loadStateFile StateFile.missing, keepRecording [] r = true)
  ∧ (syncStateWithPs []
      (recordStart "http://u" "foo" [] ⟨2025, 1, 2, 3, 4, 5⟩ none
        ⟨StateFile.missing, []⟩).state.stateFile).cleaned
      = loadStateFile StateFile.missing :=
  ⟨by decide, by decide,
   (spawnFailure_cleanup "http://u" "foo" [] ⟨2025, 1, 2, 3, 4, 5⟩
      ⟨StateFile.missing, []⟩ (by decide) (by decide) (by decide) (by decide)).2.1⟩

/-- C7 counterexample: when the set already holds a schedule with the same id,
add replaces it in place and remove then deletes it, so add followed by remove
does not restore the original set. -/
theorem cronAddRemove_counterexample :
    loadCronSchedule
      (deleteCronJob "a"
        (addCronJob (fun _ => true) "a" "0 0 * * *" "u2" "n2" none
          (CronFile.good [⟨"a", "0 0 * * *", "u1", "n1", none⟩])).2)
      = []
  ∧ loadCronSchedule (CronFile.good [⟨"a", "0 0 * * *", "u1", "n1", none⟩])
      = [⟨"a", "0 0 * * *", "u1", "n1", none⟩] := by
  constructor
  · decide
  · decide

/-- C7 (amended): for every persisted schedule set holding no definition with
the added id, a successful add followed by remove of that id leaves the
persisted schedule set exactly as before. -/
theorem cronAddRemove_roundtrip (v : String → Bool)
    (id expr streamUrl name : String) (dm : Option Nat) (cf : CronFile)
    (hid : id.isEmpty = false) (hexpr : expr.isEmpty = false)
    (hurl : streamUrl.isEmpty = false) (hname : validateName name = true)
    (hdm : (dm == some 0) = false) (hv : v expr = true)
    (hfresh : ∀ j ∈ loadCronSchedule cf, j.id ≠ id) :
    loadCronSchedule (deleteCronJob id (addCronJob v id expr streamUrl name dm cf).2)
      = loadCronSchedule cf := by
  have hne : name.isEmpty = false := validateName_isEmpty_false hname
  have hfind : (loadCronSchedule cf).findIdx? (fun j => j.id == id) = none := by
    rw [List.findIdx?_eq_none_iff]
    intro j hj
    simp [hfresh j hj]
  have hadd : (addCronJob v id expr streamUrl name dm cf).2 =
      saveCronSchedule (loadCronSchedule cf ++
        [⟨id, expr, streamUrl, name, jsOrNull dm⟩]) := by
    unfold addCronJob
    rw [hid, hexpr, hurl, hne, hname, hdm, hv]
    simp [hfind]
  rw [hadd]
  unfold deleteCronJob
  rw [show loadCronSchedule (saveCronSchedule (loadCronSchedule cf ++
        [⟨id, expr, streamUrl, name, jsOrNull dm⟩]))
      = loadCronSchedule cf ++ [⟨id, expr, streamUrl, name, jsOrNull dm⟩] from rfl]
  rw [List.filter_append]
  rw [List.filter_eq_self.mpr (fun j hj => by simp [hfresh j hj])]
  simp
  rfl

/-- Witness for the amended C7: adding schedule a to a store not containing it
and removing it again restores the empty set. -/
theorem cronAddRemove_roundtrip_witness :
    validateName "n1" = true
  ∧ (∀ j ∈ loadCronSchedule CronFile.missing, j.id ≠ "a")
  ∧ loadCronSchedule
      (deleteCronJob "a"
        (addCronJob (fun _ => true) "a" "0 0 * * *" "u1" "n1" none
          CronFile.missing).2)
      = loadCronSchedule CronFile.missing :=
  ⟨by decide, by decide,
   cronAddRemove_roundtrip (fun _ => true) "a" "0 0 * * *" "u1" "n1" none
     CronFile.missing (by decide) (by decide) (by decide) (by decide)
     (by decide) (by decide) (by decide)⟩

/-- Witness for C10: the round trip on the valid name Show123. -/
theorem filename_roundtrip_witness :
    validateName "Show123" = true
  ∧ extractNameFromArgs (generateFilename "Show123" ⟨2025, 10, 12, 9, 8, 7⟩)
      = some "Show123" :=
  ⟨by decide, filename_roundtrip "Show123" ⟨2025, 10, 12, 9, 8, 7⟩ (by decide)⟩

end StreamRecorder
